import Mathlib

/-!
Verification of the sup-metrics-api aggregation pipeline.

This file shallowly embeds the metric-aggregation code of the repository:

* the distribution-metrics aggregator (`fetchDistributionMetrics`),
* the generic metric cache manager (`MetricManager.update` /
  `MetricManager.loadFromFile`, modelled as a state machine on
  `MgrState` with the two await boundaries of `update` made explicit
  as `updateBegin` / `updateFinish`),
* the unified-scores aggregator (`fetchUnifiedScores`) with its
  delegation aggregation and final sorted merge,
* the query facade (`getDaoMembers`, `getDaoMembersWithFilters`),
* the paginated collection fetcher (`queryAllPages`).

JavaScript numbers are idealized as exact rationals (`ℚ`) where the code
computes with floating-point voting powers, and as `Nat`/`Int` where the
code computes with `BigInt` wei amounts divided by `10^18`.
JavaScript `Map`/`Set`/object-literal state is modelled by
insertion-ordered association lists with the JS overwrite/dedup
semantics made explicit (`jsSetAdd`, `jsRecordSet`).
-/

namespace SupMetrics

/-! ## Distribution Metrics Aggregator (`fetchDistributionMetrics`) -/

/-- A vesting schedule as returned by `getVestingSchedules` for the DAO
treasury: `flowRate` and `endDate` are consumed by the streaming
adjustment loop.  Amounts are wei (`BigInt` in the source). -/
structure VestingSchedule where
  sender : String
  flowRate : Nat
  endDate : Nat
deriving Repr, DecidableEq

/-- The per-locker contract-read results used by the distribution
metrics batch loop.  A failed read is caught and replaced by `BigInt(0)`
in the source, so each field is the read value or `0`. -/
structure LockerReads where
  availableBalance : Nat
  stakedBalance : Nat
deriving Repr, DecidableEq

/-- The external inputs consumed by one run of
`fetchDistributionMetrics`: direct balance reads, the DAO-treasury
vesting schedules, the current unix time and the per-locker batch
reads.  All amounts are wei. -/
structure DistEnv where
  communityChargeBalance : Nat
  vestingTotalSupply : Nat
  daoTreasuryBalance : Nat
  vestingSchedules : List VestingSchedule
  now : Nat
  foundationTreasuryBalance : Nat
  lockerBalances : List LockerReads
deriving Repr, DecidableEq

/-- The supply-category breakdown snapshot.  All values are whole-token
units (wei divided by `10^18`); `other` may be negative, hence `Int`. -/
structure DistributionMetrics where
  reserveBalances : Int
  stakedSup : Int
  lpSup : Int
  streamingOut : Int
  communityCharge : Int
  investorsTeamLocked : Int
  daoTreasury : Int
  foundationTreasury : Int
  other : Int
  totalSupply : Int
deriving Repr, DecidableEq

/-- `10^18`, the token's fixed-point scale. -/
def WAD : Nat := 10 ^ 18

/-- Shallow embedding of `fetchDistributionMetrics`.  Each named
category is computed exactly as in the source: wei totals divided by
`WAD` (floor division on `BigInt`), the DAO treasury adds the remaining
streamed amount of not-yet-ended vesting schedules, `lpSup` uses the
source's placeholder `BigInt(0)` reads and `streamingOut` the
placeholder `0`.  `other` is the total supply minus `accountedFor`,
where `accountedFor` sums exactly the five categories the source sums
(reserve, community charge, investors/team, DAO treasury, foundation
treasury).  The source guards the locker loop with
`if (lockers.length > 0)`; with no lockers the sums below are `0`,
which coincides with the guarded behaviour. -/
def fetchDistributionMetrics (env : DistEnv) : DistributionMetrics :=
  let communityCharge : Nat := env.communityChargeBalance / WAD
  let investorsTeamLocked : Nat := env.vestingTotalSupply / WAD
  let totalVestingAmount : Nat :=
    (env.vestingSchedules.map
      (fun s => if env.now < s.endDate then s.flowRate * (s.endDate - env.now) else 0)).sum
  let daoTreasury : Nat := env.daoTreasuryBalance / WAD + totalVestingAmount / WAD
  let foundationTreasury : Nat := env.foundationTreasuryBalance / WAD
  let reserveBalances : Nat := ((env.lockerBalances.map (·.availableBalance)).sum) / WAD
  let stakedSup : Nat := ((env.lockerBalances.map (·.stakedBalance)).sum) / WAD
  let lpSup : Nat := ((env.lockerBalances.map (fun _ => 0)).sum) / WAD
  let streamingOut : Nat := 0
  let totalSupply : Nat := 1000000000
  let accountedFor : Nat :=
    reserveBalances + communityCharge + investorsTeamLocked + daoTreasury + foundationTreasury
  { reserveBalances := reserveBalances
    stakedSup := stakedSup
    lpSup := lpSup
    streamingOut := streamingOut
    communityCharge := communityCharge
    investorsTeamLocked := investorsTeamLocked
    daoTreasury := daoTreasury
    foundationTreasury := foundationTreasury
    other := (totalSupply : Int) - (accountedFor : Int)
    totalSupply := totalSupply }

/-- The sum of all eight named categories of a metrics record, as
enumerated by the spec. -/
def DistributionMetrics.namedSum (m : DistributionMetrics) : Int :=
  m.reserveBalances + m.stakedSup + m.lpSup + m.streamingOut + m.communityCharge +
    m.investorsTeamLocked + m.daoTreasury + m.foundationTreasury

/-- A distribution environment in which every source reads `0` except a
single locker with a staked balance of exactly one token. -/
def stakedOnlyEnv : DistEnv :=
  { communityChargeBalance := 0
    vestingTotalSupply := 0
    daoTreasuryBalance := 0
    vestingSchedules := []
    now := 0
    foundationTreasuryBalance := 0
    lockerBalances := [{ availableBalance := 0, stakedBalance := WAD }] }

/-! ## Metric Cache Manager (`MetricManager`) -/

/-- The current schema version of persisted metric files
(`FILE_SCHEMA_VERSION = 4` in the source). -/
def FILE_SCHEMA_VERSION : Nat := 4

/-- The shape of a persisted snapshot: schema version, last update
time, payload.  `UnifiedScores` in the source has exactly this shape. -/
structure Snapshot (D : Type) where
  schemaVersion : Nat
  lastUpdatedAt : Nat
  data : D
deriving Repr, DecidableEq

/-- The mutable state of one `MetricManager` instance: the cached data,
its timestamp, and the in-flight flag `isUpdating`. -/
structure MgrState (T : Type) where
  data : T
  lastUpdatedAt : Nat
  isUpdating : Bool
deriving Repr, DecidableEq

/-- `MetricManager.getData`. -/
def getData {T : Type} (s : MgrState T) : T × Nat :=
  (s.data, s.lastUpdatedAt)

/-- The synchronous entry of `MetricManager.update`, up to the `await
this.updateFn()` suspension point: if an update is already running the
call returns at once (no compute call, `false`); otherwise it sets the
in-flight flag and proceeds (`true`). -/
def updateBegin {T : Type} (s : MgrState T) : MgrState T × Bool :=
  if s.isUpdating then (s, false)
  else ({ s with isUpdating := true }, true)

/-- The continuation of `MetricManager.update` after the awaited
compute settles: on success the new data and timestamp are committed
(and persisted), on failure the `catch` only logs; the `finally` clears
the in-flight flag in both cases.  No exception escapes `update`. -/
def updateFinish {T : Type} (s : MgrState T) (outcome : Except Unit (T × Nat)) : MgrState T :=
  match outcome with
  | .ok (d, now) => { data := d, lastUpdatedAt := now, isUpdating := false }
  | .error _ => { s with isUpdating := false }

/-- `MetricManager.loadFromFile`.  `file` is the parsed file content
(`none` for a missing file or a parse error, both of which make the
source return `false` with the state untouched).  A schema-version
mismatch also returns `false` and leaves the state untouched; otherwise
the file becomes the cached data and its timestamp is adopted. -/
def loadFromFile {D : Type} (s : MgrState (Snapshot D)) (file : Option (Snapshot D)) :
    MgrState (Snapshot D) × Bool :=
  match file with
  | none => (s, false)
  | some fileData =>
    if fileData.schemaVersion ≠ FILE_SCHEMA_VERSION then (s, false)
    else ({ s with data := fileData, lastUpdatedAt := fileData.lastUpdatedAt }, true)

/-! ## JavaScript primitives used by the aggregator -/

/-- JavaScript `String.prototype.toLowerCase`, modelled as the ASCII
case fold over the string's characters (the inputs are hex addresses,
for which this coincides with the full Unicode fold). -/
def jsToLower (s : String) : String :=
  ⟨s.data.map Char.toLower⟩

/-- JavaScript `Set.prototype.add`: insertion-ordered, deduplicating. -/
def jsSetAdd (s : List String) (x : String) : List String :=
  if x ∈ s then s else s ++ [x]

/-- JavaScript `Map.prototype.set` / object key assignment: overwrite
in place if the key exists, else append (iteration is in first-insertion
order). -/
def jsRecordSet {α : Type} (m : List (String × α)) (k : String) (v : α) :
    List (String × α) :=
  if m.any (fun p => p.1 == k) then
    m.map (fun p => if p.1 == k then (k, v) else p)
  else m ++ [(k, v)]

/-! ## Unified Scores Aggregator (`fetchUnifiedScores`) -/

/-- One entry of the `getVotingPowerBatch` result (the `delegated`
field is absent for the `includeDelegations = false` call the
aggregator makes, so it is not modelled). -/
structure VotingPower2 where
  address : String
  own : ℚ
deriving Repr, DecidableEq

/-- One delegation edge from the delegation registry. -/
structure Delegation where
  delegator : String
  delegate : String
deriving Repr, DecidableEq

/-- `MemberData` of the source: optional fields are JS
`undefined`-able fields. -/
structure MemberData where
  ownVp : ℚ
  delegatedVp : Option ℚ := none
  nrDelegators : Option Nat := none
  delegate : Option String := none
  locker : Option String := none
deriving Repr, DecidableEq

/-- `TotalScoreData` of the source (opaque to every claim; carried
through the snapshot unchanged). -/
structure TotalScoreData where
  totalScore : ℚ
  poolCount : Nat
  additionalTotalScore : ℚ
deriving Repr, DecidableEq

/-- The payload of the unified-scores snapshot: the members map in its
JS object insertion order, and the total-score aggregate. -/
structure UnifiedScoresData where
  members : List (String × MemberData)
  totalScore : TotalScoreData
deriving Repr, DecidableEq

/-- The external inputs consumed by one run of `fetchUnifiedScores`:

* `asupHolders` — the externally loaded holder list (`asupHolders.json`);
* `lockerOwnerPairs` — the `(locker, owner)` pairs for which the
  best-effort `lockerOwner` contract read succeeded, in resolution
  order across all pools (failed reads are dropped by the source
  before they touch any state, so they do not appear here);
* `delegations` — the delegation edges returned by the paginated
  registry query;
* `fountainheadScores`, `asupScores` — the merged per-strategy score
  maps returned by the chunked external scoring calls (`none` when the
  engine returns no score for the address);
* `totalScore` — the stage-0 `calculateTotalScore` result;
* `currentTimestamp` — the unix time taken at the start of the run. -/
structure UnifiedEnv where
  asupHolders : List String
  lockerOwnerPairs : List (String × String)
  delegations : List Delegation
  fountainheadScores : String → Option ℚ
  asupScores : String → Option ℚ
  totalScore : TotalScoreData
  currentTimestamp : Nat

/-- The `uniqueAccounts` set after stages 1–3: aSUP holders, then the
resolved locker owners, then both endpoints of every delegation edge,
all lowercased, deduplicated in insertion order. -/
def uniqueAccounts (env : UnifiedEnv) : List String :=
  ((env.asupHolders.map jsToLower)
    ++ env.lockerOwnerPairs.map (fun p => jsToLower p.2)
    ++ env.delegations.flatMap (fun d => [jsToLower d.delegator, jsToLower d.delegate])).foldl
    jsSetAdd []

/-- The `lockerToOwnerMap` after stage 2: `(locker, owner)` pairs,
lowercased, with JS `Map.set` overwrite semantics. -/
def lockerToOwnerMap (env : UnifiedEnv) : List (String × String) :=
  env.lockerOwnerPairs.foldl (fun m p => jsRecordSet m (jsToLower p.1) (jsToLower p.2)) []

/-- One entry of the stage-4 batch result: the account's lowercased
address and
`own = (scoresFountainhead[addr] || 0) + (scoresAsup[addr] || 0)`. -/
def mkVotingPower (env : UnifiedEnv) (a : String) : VotingPower2 :=
  { address := jsToLower a
    own := ((env.fountainheadScores (jsToLower a)).getD 0)
             + ((env.asupScores (jsToLower a)).getD 0) }

/-- Stage 4, `getVotingPowerBatch(uniqueAccountsArray, false)`: every
account of interest is scored. -/
def ownVotingPowers (env : UnifiedEnv) : List VotingPower2 :=
  (uniqueAccounts env).map (mkVotingPower env)

/-- Stage 5a, the delegated-power aggregation loop: for each edge, if
the delegator's own voting power was found, add it to the delegate's
running total and bump the delegate's delegator count.  The two JS
`Map`s with `get(k) || 0` reads are modelled as total functions with
default `0`. -/
def delegatedPowerStep (own : List VotingPower2)
    (acc : (String → ℚ) × (String → Nat)) (d : Delegation) :
    (String → ℚ) × (String → Nat) :=
  let delegator := jsToLower d.delegator
  let delegate := jsToLower d.delegate
  match own.find? (fun vp => vp.address == delegator) with
  | some vp =>
    (fun a => if a = delegate then acc.1 delegate + vp.own else acc.1 a,
     fun a => if a = delegate then acc.2 delegate + 1 else acc.2 a)
  | none => acc

/-- The whole stage-5a loop: fold `delegatedPowerStep` over the edge
list starting from the two empty maps. -/
def computeDelegatedPower (own : List VotingPower2) (dels : List Delegation) :
    (String → ℚ) × (String → Nat) :=
  dels.foldl (delegatedPowerStep own) (fun _ => 0, fun _ => 0)

/-- Stage 5b, the per-account `MemberData` record: own power, the first
locker in `lockerToOwnerMap` whose owner is this account, and — when
`delegatedVp && delegatedVp > 0` — the delegated power and delegator
count. -/
def mkMemberData (dvp : String → ℚ) (cnt : String → Nat)
    (mapEntries : List (String × String)) (vp : VotingPower2) : MemberData :=
  let locker := (mapEntries.find? (fun p => p.2 == vp.address)).map (·.1)
  if 0 < dvp vp.address then
    { ownVp := vp.own, locker := locker
      delegatedVp := some (dvp vp.address), nrDelegators := some (cnt vp.address) }
  else
    { ownVp := vp.own, locker := locker }

/-- Total voting power of a member, `ownVp + (delegatedVp || 0)`. -/
def totalVp (m : MemberData) : ℚ :=
  m.ownVp + m.delegatedVp.getD 0

/-- The comparison the final sort uses: the JS comparator
`(a, b) => bTotal - aTotal` sorts by total voting power descending. -/
def memberLE (a b : String × MemberData) : Bool :=
  decide (totalVp b.2 ≤ totalVp a.2)

/-- The two delegated-power maps of one run. -/
def delegatedMaps (env : UnifiedEnv) : (String → ℚ) × (String → Nat) :=
  computeDelegatedPower (ownVotingPowers env) env.delegations

/-- The `MemberData` record one run builds for the batch entry `vp`. -/
def mkMember (env : UnifiedEnv) (vp : VotingPower2) : MemberData :=
  mkMemberData (delegatedMaps env).1 (delegatedMaps env).2 (lockerToOwnerMap env) vp

/-- The members object after the "process voting powers" loop of stage
5: one JS object assignment `data[vp.address] = memberData` per batch
entry, in batch order. -/
def rawMembers (env : UnifiedEnv) : List (String × MemberData) :=
  (ownVotingPowers env).foldl
    (fun acc vp => jsRecordSet acc vp.address (mkMember env vp)) []

/-- One step of the "process delegations to add delegate info" loop:
`if (data[delegator]) data[delegator].delegate = delegate`, an in-place
field mutation that moves no entry. -/
def stampDelegate (del : Delegation) (p : String × MemberData) : String × MemberData :=
  if p.1 == jsToLower del.delegator then
    (p.1, { p.2 with delegate := some (jsToLower del.delegate) })
  else p

/-- The members object after the delegate-stamping loop. -/
def membersBeforeSort (env : UnifiedEnv) : List (String × MemberData) :=
  env.delegations.foldl (fun acc del => acc.map (stampDelegate del)) (rawMembers env)

/-- Stage 5, the final merge: build the members object in
`ownVotingPowers` order, then stamp each delegator's outbound
`delegate` field, then sort by total voting power descending. -/
def compileMembers (env : UnifiedEnv) : List (String × MemberData) :=
  (membersBeforeSort env).mergeSort memberLE

/-- `fetchUnifiedScores`: the committed snapshot of one successful
aggregator run. -/
def fetchUnifiedScores (env : UnifiedEnv) : Snapshot UnifiedScoresData :=
  { schemaVersion := FILE_SCHEMA_VERSION
    lastUpdatedAt := env.currentTimestamp
    data := { members := compileMembers env, totalScore := env.totalScore } }

/-- The own voting power recorded for address `a`,
`(find first entry with this address).own`, defaulting to `0`. -/
def ownVpLookup (own : List VotingPower2) (a : String) : ℚ :=
  ((own.find? (fun vp => vp.address == a)).map (·.own)).getD 0

/-- Lookup in the members object. -/
def memberLookup (m : List (String × MemberData)) (a : String) : Option MemberData :=
  (m.find? (fun p => p.1 == a)).map (·.2)

/-! ## Query Facade (`getDaoMembers`, `getDaoMembersWithFilters`) -/

/-- The `isDelegate` sub-object of a `DaoMember`. -/
structure DelegateInfo where
  delegatedVotingPower : ℚ
  nrDelegators : Nat
deriving Repr, DecidableEq

/-- The projected member record served by the members endpoint. -/
structure DaoMember where
  address : String
  locker : Option String
  votingPower : ℚ
  hasDelegate : Option String
  isDelegate : Option DelegateInfo
deriving Repr, DecidableEq

/-- JS `x || null` on an optional string: `undefined` and the falsy
empty string map to `null`. -/
def jsOrNullStr (o : Option String) : Option String :=
  match o with
  | some s => if s = "" then none else some s
  | none => none

/-- `getDaoMembers`: project every entry of the cached members object,
in order.  `isDelegate` is present iff `data.delegatedVp` is truthy
(present and nonzero). -/
def getDaoMembers (members : List (String × MemberData)) : List DaoMember :=
  members.map (fun p =>
    { address := p.1
      locker := jsOrNullStr p.2.locker
      votingPower := p.2.ownVp
      hasDelegate := jsOrNullStr p.2.delegate
      isDelegate :=
        match p.2.delegatedVp with
        | some v =>
          if v ≠ 0 then
            some { delegatedVotingPower := v, nrDelegators := p.2.nrDelegators.getD 0 }
          else none
        | none => none })

/-- The response of the members endpoint. -/
structure DaoMembersResponse where
  totalMembersCount : Nat
  daoMembers : List DaoMember
  lastUpdatedAt : Nat
deriving Repr, DecidableEq

/-- `getDaoMembersWithFilters`: keep a member when
`includeAllDelegates && member.isDelegate`, otherwise when
`member.votingPower >= minVotingPower`; report the unfiltered count. -/
def getDaoMembersWithFilters (members : List (String × MemberData)) (lastUpdatedAt : Nat)
    (minVotingPower : ℚ) (includeAllDelegates : Bool) : DaoMembersResponse :=
  let daoMembers := getDaoMembers members
  let filteredMembers := daoMembers.filter (fun member =>
    if includeAllDelegates && member.isDelegate.isSome then true
    else decide (minVotingPower ≤ member.votingPower))
  { totalMembersCount := daoMembers.length
    daoMembers := filteredMembers
    lastUpdatedAt := lastUpdatedAt }

/-! ## Paginated Collection Fetcher (`queryAllPages`) -/

/-- A raw item of a page response; the fetcher only needs its `id`
(the cursor) besides the payload handed to the item mapper. -/
structure RawItem (α : Type) where
  id : String
  item : α
deriving Repr, DecidableEq

/-- One upstream page response: the query-level `errors` flag and the
raw items. -/
structure PageResponse (α : Type) where
  errors : Bool
  items : List (RawItem α)
deriving Repr, DecidableEq

/-- The fetcher's fixed page size. -/
def pageSize : Nat := 1000

/-- Shallow embedding of `queryAllPages`.  The upstream is modelled by
the sequence of page responses it returns to the successive requests;
`lastId` is the cursor variable, `stopEarly` the `STOP_EARLY`
environment flag.  Returns the accumulated mapped items together with
the successive cursor values assigned after each full page (each is the
last raw item's `id`).  An erroring response stops the loop at once,
keeping what was accumulated; a page shorter than `pageSize` stops it
after appending that page's items.  If the modelled upstream sequence
runs dry the loop stops with what it has (unreachable for traces of the
real loop, which only re-queries after a full page). -/
def queryAllPages {α β : Type} (itemFn : RawItem α → β) (stopEarly : Bool) :
    String → List (PageResponse α) → List β × List String
  | _, [] => ([], [])
  | lastId, r :: rest =>
    if r.errors then ([], [])
    else
      let newItems := r.items
      let mapped := newItems.map itemFn
      if newItems.length < pageSize then (mapped, [])
      else
        let newLastId :=
          match newItems.getLast? with
          | some it => it.id
          | none => lastId
        if stopEarly then (mapped, [newLastId])
        else
          let tail := queryAllPages itemFn stopEarly newLastId rest
          (mapped ++ tail.1, newLastId :: tail.2)

/-! ## Concrete example inputs used by the witness theorems -/

/-- A manager state that is not mid-refresh. -/
def exIdleState : MgrState Nat :=
  { data := 0, lastUpdatedAt := 0, isUpdating := false }

/-- A manager state with a refresh in flight. -/
def exBusyState : MgrState Nat :=
  { data := 5, lastUpdatedAt := 1, isUpdating := true }

/-- An idle manager state holding a unified-scores-shaped snapshot. -/
def exSnapState : MgrState (Snapshot Unit) :=
  { data := { schemaVersion := 4, lastUpdatedAt := 10, data := () }
    lastUpdatedAt := 10
    isUpdating := false }

/-- A persisted file whose schema version (3) is not the expected one. -/
def exStaleFile : Snapshot Unit :=
  { schemaVersion := 3, lastUpdatedAt := 99, data := () }

/-- An aggregator environment with one delegation edge `A → D` and a
scoring engine that knows no address. -/
def exEnv : UnifiedEnv :=
  { asupHolders := []
    lockerOwnerPairs := []
    delegations := [{ delegator := "A", delegate := "D" }]
    fountainheadScores := fun _ => none
    asupScores := fun _ => none
    totalScore := { totalScore := 0, poolCount := 0, additionalTotalScore := 0 }
    currentTimestamp := 0 }

/-- Batch scores for the C2 scenario: `ownVp(A) = 100`, `ownVp(B) = 50`. -/
def exOwn : List VotingPower2 :=
  [{ address := "a", own := 100 }, { address := "b", own := 50 }]

/-- Edges for the C2 scenario: `[{A→D}, {B→D}]`. -/
def exDels : List Delegation :=
  [{ delegator := "a", delegate := "d" }, { delegator := "b", delegate := "d" }]

/-- Cached members for the filter scenario: a pure delegate with
`ownVp = 0, delegatedVp = 500000` and a small holder with
`ownVp = 50000`. -/
def exFilterMembers : List (String × MemberData) :=
  [("0xbig", { ownVp := 0, delegatedVp := some 500000, nrDelegators := some 1 }),
   ("0xsmall", { ownVp := 50000 })]

/-- A full upstream page: exactly `pageSize` items. -/
def exFullPage : PageResponse Nat :=
  { errors := false, items := List.replicate 1000 { id := "x", item := 0 } }

/-- A short, clean upstream page. -/
def exShortPage : PageResponse Nat :=
  { errors := false, items := [{ id := "y", item := 1 }] }

/-- An upstream page carrying query-level errors. -/
def exErrorPage : PageResponse Nat :=
  { errors := true, items := [{ id := "z", item := 2 }] }

/-! # Theorems -/

/-! ## C1 — distribution accounting identity -/

/-- C1, counterexample: with a single locker holding one staked token
and every other source reading zero, `other` plus the sum of all eight
named categories exceeds `totalSupply` by the staked token, because the
code's `accountedFor` sum omits `stakedSup` (as well as `lpSup` and
`streamingOut`). -/
theorem distribution_accounting_all_categories_counterexample :
    ¬ ((fetchDistributionMetrics stakedOnlyEnv).other
        + (fetchDistributionMetrics stakedOnlyEnv).namedSum
        = (fetchDistributionMetrics stakedOnlyEnv).totalSupply) := by
  decide

/-- C1 (amended): in every computed metrics record, `other` plus the
sum of the five categories the code actually accounts
(`reserveBalances`, `communityCharge`, `investorsTeamLocked`,
`daoTreasury`, `foundationTreasury`) equals `totalSupply` exactly, with
`other` surfaced verbatim (not clamped, may be negative);
`stakedSup`, `lpSup` and `streamingOut` are not part of the accounted
sum. -/
theorem distribution_accounting_identity (env : DistEnv) :
    (fetchDistributionMetrics env).other
      + ((fetchDistributionMetrics env).reserveBalances
        + (fetchDistributionMetrics env).communityCharge
        + (fetchDistributionMetrics env).investorsTeamLocked
        + (fetchDistributionMetrics env).daoTreasury
        + (fetchDistributionMetrics env).foundationTreasury)
      = (fetchDistributionMetrics env).totalSupply := by
  simp only [fetchDistributionMetrics]
  push_cast
  ring

/-! ## C3 — concurrent refresh is a no-op -/

/-- C3: entering `update()` while `isUpdating` is set returns at once
with the state unchanged and without invoking the compute function
(`false` flag) or raising; consequently, of two invocations where the
second arrives while the first is in flight, exactly the first proceeds
to call the compute function. -/
theorem update_concurrent_noop {T : Type} (s s0 : MgrState T)
    (hs : s.isUpdating = true) (h0 : s0.isUpdating = false) :
    updateBegin s = (s, false)
    ∧ (updateBegin s0).2 = true
    ∧ updateBegin (updateBegin s0).1 = ((updateBegin s0).1, false) := by
  refine ⟨by simp [updateBegin, hs], ?_, ?_⟩ <;> simp [updateBegin, h0]

/-- C3 witness at a concrete busy state and a concrete idle state. -/
theorem update_concurrent_noop_witness :
    updateBegin exBusyState = (exBusyState, false)
    ∧ (updateBegin exIdleState).2 = true
    ∧ updateBegin (updateBegin exIdleState).1 = ((updateBegin exIdleState).1, false) :=
  update_concurrent_noop exBusyState exIdleState rfl rfl

/-! ## C4 — failed refresh keeps the previous snapshot -/

/-- C4: if the compute function throws during `update()`, the `catch`
absorbs the error (nothing is re-raised, as `updateFinish` is total)
and `getData()` afterwards returns exactly the data and
`lastUpdatedAt` from before the failed refresh. -/
theorem update_failure_preserves_snapshot {T : Type} (s : MgrState T)
    (h : s.isUpdating = false) :
    getData (updateFinish (updateBegin s).1 (Except.error ())) = getData s := by
  simp [updateBegin, h, updateFinish, getData]

/-- C4 witness at a concrete idle state. -/
theorem update_failure_preserves_snapshot_witness :
    getData (updateFinish (updateBegin exIdleState).1 (Except.error ())) = getData exIdleState :=
  update_failure_preserves_snapshot exIdleState rfl

/-! ## C5 — schema versioning -/

/-- C5: loading a persisted file whose `schemaVersion` differs from
`FILE_SCHEMA_VERSION` returns `false` and leaves the manager state
exactly as it was (nothing of the on-disk value is adopted); and the
snapshot the aggregator produces (which is what the manager persists
after a successful refresh) always carries
`schemaVersion = FILE_SCHEMA_VERSION`. -/
theorem schema_mismatch_is_cold_start {D : Type} (s : MgrState (Snapshot D))
    (file : Snapshot D) (h : file.schemaVersion ≠ FILE_SCHEMA_VERSION)
    (env : UnifiedEnv) :
    loadFromFile s (some file) = (s, false)
    ∧ (fetchUnifiedScores env).schemaVersion = FILE_SCHEMA_VERSION :=
  ⟨by simp [loadFromFile, h], rfl⟩

/-- C5 witness: a version-3 file against a version-4 manager. -/
theorem schema_mismatch_is_cold_start_witness :
    loadFromFile exSnapState (some exStaleFile) = (exSnapState, false)
    ∧ (fetchUnifiedScores exEnv).schemaVersion = FILE_SCHEMA_VERSION :=
  schema_mismatch_is_cold_start exSnapState exStaleFile (by decide) exEnv

/-! ## C10 — total count is the unfiltered cardinality -/

/-- C10: `getDaoMembersWithFilters` reports `totalMembersCount` equal
to the number of entries of the full cached members map, for every
choice of filter parameters — never the filtered list's length. -/
theorem totalMembersCount_is_unfiltered (members : List (String × MemberData))
    (lastUpdatedAt : Nat) (minVotingPower : ℚ) (includeAllDelegates : Bool) :
    (getDaoMembersWithFilters members lastUpdatedAt minVotingPower
        includeAllDelegates).totalMembersCount = members.length := by
  simp [getDaoMembersWithFilters, getDaoMembers]

/-! ## C6 — filter semantics -/

/-- C6: the filtered member list contains a member iff it is in the
cached (projected) member list and either `includeAllDelegates` is set
and the member is a delegate, or its own voting power reaches
`minVotingPower`; the filtered list is a subsequence of the cached
list (no re-sorting).  In particular, with `minVotingPower = 100000`
and `includeAllDelegates = true`, a member with `ownVp = 0,
delegatedVp = 500000` is kept and a member with `ownVp = 50000` and no
delegated power is dropped. -/
theorem member_filter_semantics (members : List (String × MemberData))
    (lastUpdatedAt : Nat) (minVotingPower : ℚ) (includeAllDelegates : Bool)
    (m : DaoMember) :
    (m ∈ (getDaoMembersWithFilters members lastUpdatedAt minVotingPower
            includeAllDelegates).daoMembers
      ↔ m ∈ getDaoMembers members
          ∧ ((includeAllDelegates = true ∧ m.isDelegate.isSome = true)
              ∨ minVotingPower ≤ m.votingPower))
    ∧ (getDaoMembersWithFilters members lastUpdatedAt minVotingPower
          includeAllDelegates).daoMembers.Sublist (getDaoMembers members)
    ∧ (getDaoMembersWithFilters exFilterMembers 0 100000 true).daoMembers.map
        DaoMember.address = ["0xbig"] := by
  refine ⟨?_, List.filter_sublist _, by decide⟩
  simp only [getDaoMembersWithFilters, List.mem_filter]
  constructor
  · rintro ⟨hmem, hp⟩
    refine ⟨hmem, ?_⟩
    cases hinc : includeAllDelegates <;> cases hd : m.isDelegate.isSome <;>
      simp [hinc, hd] at hp ⊢ <;> tauto
  · rintro ⟨hmem, hp⟩
    refine ⟨hmem, ?_⟩
    cases hinc : includeAllDelegates <;> cases hd : m.isDelegate.isSome <;>
      simp [hinc, hd] at hp ⊢ <;> tauto

/-! ## C2 — delegated-power aggregation -/

/-- The stage-5a fold, evaluated at any accumulator: at every address
`m` it adds the own voting powers of the delegators of the edges
pointing at `m` (provided every edge's delegator has a batch entry,
so no edge is skipped) and counts those edges. -/
theorem delegatedPower_foldl (own : List VotingPower2) (m : String)
    (dels : List Delegation) :
    ∀ (acc : (String → ℚ) × (String → Nat)),
      (∀ d ∈ dels,
        (own.find? (fun vp => vp.address == jsToLower d.delegator)).isSome = true) →
      (dels.foldl (delegatedPowerStep own) acc).1 m
        = acc.1 m + ((dels.filter (fun d => jsToLower d.delegate == m)).map
            (fun d => ownVpLookup own (jsToLower d.delegator))).sum
      ∧ (dels.foldl (delegatedPowerStep own) acc).2 m
        = acc.2 m + (dels.filter (fun d => jsToLower d.delegate == m)).length := by
  induction dels with
  | nil => intro acc _; simp
  | cons d rest ih =>
    intro acc h
    have hd := h d (List.mem_cons_self d rest)
    obtain ⟨vp, hvp⟩ := Option.isSome_iff_exists.mp hd
    have hrest := fun d' hd' => h d' (List.mem_cons_of_mem d hd')
    have hlook : ownVpLookup own (jsToLower d.delegator) = vp.own := by
      simp [ownVpLookup, hvp]
    have hstep := ih (delegatedPowerStep own acc d) hrest
    by_cases hm : jsToLower d.delegate = m
    · have h1 : (delegatedPowerStep own acc d).1 m = acc.1 m + vp.own := by
        simp [delegatedPowerStep, hvp, hm.symm]
      have h2 : (delegatedPowerStep own acc d).2 m = acc.2 m + 1 := by
        simp [delegatedPowerStep, hvp, hm.symm]
      refine ⟨?_, ?_⟩
      · rw [List.foldl_cons, hstep.1, h1, List.filter_cons_of_pos (by simp [hm]),
          List.map_cons, List.sum_cons, hlook]
        ring
      · rw [List.foldl_cons, hstep.2, h2, List.filter_cons_of_pos (by simp [hm]),
          List.length_cons]
        omega
    · have hm' : m ≠ jsToLower d.delegate := Ne.symm hm
      have h1 : (delegatedPowerStep own acc d).1 m = acc.1 m := by
        simp [delegatedPowerStep, hvp, hm']
      have h2 : (delegatedPowerStep own acc d).2 m = acc.2 m := by
        simp [delegatedPowerStep, hvp, hm']
      refine ⟨?_, ?_⟩
      · rw [List.foldl_cons, hstep.1, h1, List.filter_cons_of_neg (by simp [hm])]
      · rw [List.foldl_cons, hstep.2, h2, List.filter_cons_of_neg (by simp [hm])]

/-- C2: for a fixed edge set without conflicting edges (pairwise
distinct delegators, so the edges pointing at `m` are in bijection with
the delegators delegating to `m`) in which every delegator's own voting
power is known, the delegated-power stage assigns every address `m` a
delegated power equal to the sum of the own voting powers of its
delegators, and a delegator count equal to their number. -/
theorem delegated_power_aggregation (own : List VotingPower2)
    (dels : List Delegation) (m : String)
    (hconflictfree : (dels.map (fun d => jsToLower d.delegator)).Nodup)
    (hknown : ∀ d ∈ dels, ∃ vp ∈ own, vp.address = jsToLower d.delegator) :
    (computeDelegatedPower own dels).1 m
      = ((dels.filter (fun d => jsToLower d.delegate == m)).map
          (fun d => ownVpLookup own (jsToLower d.delegator))).sum
    ∧ (computeDelegatedPower own dels).2 m
      = (dels.filter (fun d => jsToLower d.delegate == m)).length := by
  have hfind : ∀ d ∈ dels,
      (own.find? (fun vp => vp.address == jsToLower d.delegator)).isSome = true := by
    intro d hd
    obtain ⟨vp, hmem, heq⟩ := hknown d hd
    rw [List.find?_isSome]
    exact ⟨vp, hmem, by simp [heq]⟩
  have h := delegatedPower_foldl own m dels (fun _ => 0, fun _ => 0) hfind
  simpa [computeDelegatedPower] using h

/-- C2 witness, the spec scenario: edges `[{A→D},{B→D}]` with
`ownVp(A) = 100`, `ownVp(B) = 50` yield `delegatedVp(D) = 150` and
`nrDelegators(D) = 2`. -/
theorem delegated_power_aggregation_witness :
    (computeDelegatedPower exOwn exDels).1 "d" = 150
    ∧ (computeDelegatedPower exOwn exDels).2 "d" = 2 := by
  have h := delegated_power_aggregation exOwn exDels "d" (by decide) (by decide)
  have e : (exDels.filter (fun d => jsToLower d.delegate == "d")).map
      (fun d => ownVpLookup exOwn (jsToLower d.delegator)) = [100, 50] := by decide
  refine ⟨?_, ?_⟩
  · rw [h.1, e]
    norm_num
  · rw [h.2]
    decide

/-! ## C8 — paginated fetcher contract -/

/-- C8: after any run of full, error-free pages, the fetcher has
accumulated the in-order concatenation of the mapped items of those
pages and has advanced its cursor after each full page to that page's
last raw item's `id`; if the next response carries query-level errors
it stops at once (without raising — the model is total) returning
exactly what was accumulated, and if the next response is below the
page size of 1000 it stops after appending that page's items.  Any
later responses are never requested. -/
theorem queryAllPages_contract {α β : Type} (itemFn : RawItem α → β)
    (fullPages : List (PageResponse α)) (r : PageResponse α)
    (rest : List (PageResponse α)) (lastId : String)
    (hfull : ∀ p ∈ fullPages, p.errors = false ∧ pageSize ≤ p.items.length) :
    (r.errors = true →
      queryAllPages itemFn false lastId (fullPages ++ r :: rest)
        = ((fullPages.map (fun p => p.items.map itemFn)).flatten,
           fullPages.map (fun p => (p.items.getLast?.map RawItem.id).getD "")))
    ∧ (r.errors = false → r.items.length < pageSize →
      queryAllPages itemFn false lastId (fullPages ++ r :: rest)
        = ((fullPages.map (fun p => p.items.map itemFn)).flatten
            ++ r.items.map itemFn,
           fullPages.map (fun p => (p.items.getLast?.map RawItem.id).getD ""))) := by
  induction fullPages generalizing lastId with
  | nil =>
    refine ⟨fun herr => ?_, fun herr hshort => ?_⟩
    · simp [queryAllPages, herr]
    · simp [queryAllPages, herr, hshort]
  | cons p fp ih =>
    have hp := hfull p (List.mem_cons_self p fp)
    have hfp : ∀ q ∈ fp, q.errors = false ∧ pageSize ≤ q.items.length :=
      fun q hq => hfull q (List.mem_cons_of_mem p hq)
    have hnotlt : ¬ p.items.length < pageSize := not_lt.mpr hp.2
    have hne : p.items ≠ [] :=
      List.ne_nil_of_length_pos (lt_of_lt_of_le (by norm_num [pageSize]) hp.2)
    obtain ⟨it, hit⟩ := Option.isSome_iff_exists.mp (List.getLast?_isSome.mpr hne)
    have ihh := ih it.id hfp
    refine ⟨fun herr => ?_, fun herr hshort => ?_⟩
    · have ht := ihh.1 herr
      simp [queryAllPages, hp.1, hnotlt, hit, ht]
    · have ht := ihh.2 herr hshort
      simp [queryAllPages, hp.1, hnotlt, hit, ht]

/-- C8 witness: one full page (1000 items) followed by a short clean
page; the run returns the 1001 mapped items in order and the one cursor
advanced to the full page's last item id. -/
theorem queryAllPages_contract_witness :
    queryAllPages (fun it => it.item) false "" ([exFullPage] ++ exShortPage :: [])
      = (([exFullPage].map (fun p => p.items.map (fun it => it.item))).flatten
          ++ exShortPage.items.map (fun it => it.item),
         [exFullPage].map (fun p => (p.items.getLast?.map RawItem.id).getD "")) :=
  (queryAllPages_contract (fun it => it.item) [exFullPage] exShortPage [] ""
    (by
      intro p hp
      rw [List.mem_singleton] at hp
      subst hp
      refine ⟨rfl, ?_⟩
      rw [show exFullPage.items = List.replicate 1000 { id := "x", item := 0 } from rfl,
        List.length_replicate]
      norm_num [pageSize])).2 rfl (by decide)

/-! ## C7 — the member list is sorted by total power descending -/

/-- C7: in the members list of every snapshot the aggregator produces,
each pair of adjacent entries is non-increasing in
`ownVp + (delegatedVp || 0)`. -/
theorem members_sorted_by_total_desc (env : UnifiedEnv) :
    ((fetchUnifiedScores env).data.members).Chain'
      (fun p q => totalVp q.2 ≤ totalVp p.2) := by
  have htrans : ∀ a b c : String × MemberData,
      memberLE a b → memberLE b c → memberLE a c := by
    intro a b c hab hbc
    simp only [memberLE, decide_eq_true_eq] at *
    exact le_trans hbc hab
  have htotal : ∀ a b : String × MemberData, memberLE a b || memberLE b a := by
    intro a b
    simp only [memberLE, Bool.or_eq_true, decide_eq_true_eq]
    exact le_total _ _
  have hp : ((membersBeforeSort env).mergeSort memberLE).Pairwise
      (fun a b => memberLE a b = true) :=
    List.sorted_mergeSort htrans htotal (membersBeforeSort env)
  have heq : (fetchUnifiedScores env).data.members
      = (membersBeforeSort env).mergeSort memberLE := rfl
  rw [heq]
  exact List.Pairwise.chain'
    (hp.imp (fun h => by simpa only [memberLE, decide_eq_true_eq] using h))

/-! ## C9 — delegation edges always resolve to member entries -/

/-- ASCII case folding is idempotent on characters. -/
theorem char_toLower_idem (c : Char) : c.toLower.toLower = c.toLower := by
  unfold Char.toLower
  by_cases h : c.toNat ≥ 65 ∧ c.toNat ≤ 90
  · rw [if_pos h]
    have hval : (Char.ofNat (c.toNat + 32)).toNat = c.toNat + 32 := by
      rw [Char.ofNat, dif_pos]
      · rfl
      · exact Or.inl (by omega)
    rw [if_neg]
    rw [hval]
    omega
  · rw [if_neg h, if_neg h]

/-- `jsToLower` is idempotent. -/
theorem jsToLower_idem (s : String) : jsToLower (jsToLower s) = jsToLower s := by
  unfold jsToLower
  congr 1
  rw [List.map_map]
  exact List.map_congr_left (fun c _ => char_toLower_idem c)

/-- Membership after folding `jsSetAdd`: exactly the accumulator's
elements plus the fed elements. -/
theorem mem_foldl_jsSetAdd (x : String) :
    ∀ (L acc : List String), x ∈ L.foldl jsSetAdd acc ↔ x ∈ acc ∨ x ∈ L := by
  intro L
  induction L with
  | nil => intro acc; simp
  | cons a L ih =>
    intro acc
    rw [List.foldl_cons, ih]
    unfold jsSetAdd
    split <;> rename_i ha <;> simp <;> constructor
    · rintro (h | h)
      · exact Or.inl h
      · exact Or.inr (Or.inr h)
    · rintro (h | h | h)
      · exact Or.inl h
      · exact Or.inl (h ▸ ha)
      · exact Or.inr h
    · rintro ((h | h) | h)
      · exact Or.inl h
      · exact Or.inr (Or.inl h)
      · exact Or.inr (Or.inr h)
    · rintro (h | h | h)
      · exact Or.inl (Or.inl h)
      · exact Or.inl (Or.inr h)
      · exact Or.inr h

/-- Folding `jsSetAdd` preserves `Nodup`. -/
theorem nodup_foldl_jsSetAdd :
    ∀ (L acc : List String), acc.Nodup → (L.foldl jsSetAdd acc).Nodup := by
  intro L
  induction L with
  | nil => intro acc h; simpa using h
  | cons a L ih =>
    intro acc h
    rw [List.foldl_cons]
    apply ih
    unfold jsSetAdd
    split <;> rename_i ha
    · exact h
    · simpa [List.nodup_append] using ⟨h, ha⟩

/-- Every element of the accounts-of-interest set is already
lowercased. -/
theorem uniqueAccounts_lowered (env : UnifiedEnv) :
    ∀ x ∈ uniqueAccounts env, jsToLower x = x := by
  intro x hx
  rw [uniqueAccounts, mem_foldl_jsSetAdd] at hx
  rcases hx with h | hx
  · simp at h
  simp only [List.mem_append, List.mem_map, List.mem_flatMap, List.mem_cons,
    List.not_mem_nil, or_false] at hx
  rcases hx with (⟨y, _, rfl⟩ | ⟨p, _, rfl⟩) | ⟨d, _, h | h⟩
  · exact jsToLower_idem y
  · exact jsToLower_idem _
  · subst h
    exact jsToLower_idem _
  · subst h
    exact jsToLower_idem _

/-- The accounts-of-interest set has no duplicates. -/
theorem uniqueAccounts_nodup (env : UnifiedEnv) : (uniqueAccounts env).Nodup :=
  nodup_foldl_jsSetAdd _ [] List.nodup_nil

/-- Both endpoints of every fetched delegation edge, lowercased, are
accounts of interest. -/
theorem mem_uniqueAccounts_of_delegation (env : UnifiedEnv) (d : Delegation)
    (hd : d ∈ env.delegations) :
    jsToLower d.delegator ∈ uniqueAccounts env
    ∧ jsToLower d.delegate ∈ uniqueAccounts env := by
  constructor <;>
  · rw [uniqueAccounts, mem_foldl_jsSetAdd]
    refine Or.inr ?_
    simp only [List.mem_append, List.mem_flatMap]
    exact Or.inr ⟨d, hd, by simp⟩

/-- The addresses of the scored batch are exactly the accounts of
interest (in order): lowercasing them again changes nothing. -/
theorem ownVotingPowers_addresses (env : UnifiedEnv) :
    (ownVotingPowers env).map VotingPower2.address = uniqueAccounts env := by
  rw [ownVotingPowers, List.map_map]
  exact (List.map_congr_left
    (fun a ha => uniqueAccounts_lowered env a ha)).trans (List.map_id _)

/-- When the fed keys are fresh and pairwise distinct, the JS object
build-up loop only appends: no overwrite ever fires. -/
theorem foldl_jsRecordSet_append (g : VotingPower2 → MemberData) :
    ∀ (L : List VotingPower2) (acc : List (String × MemberData)),
      (acc.map Prod.fst ++ L.map VotingPower2.address).Nodup →
      L.foldl (fun acc vp => jsRecordSet acc vp.address (g vp)) acc
        = acc ++ L.map (fun vp => (vp.address, g vp)) := by
  intro L
  induction L with
  | nil => intro acc _; simp
  | cons vp L ih =>
    intro acc hnd
    have hdisj := (List.nodup_append.mp hnd).2.2
    have hnotin : vp.address ∉ acc.map Prod.fst := by
      intro hmem
      exact hdisj hmem (by simp)
    have hany : acc.any (fun p => p.1 == vp.address) = false := by
      rw [List.any_eq_false]
      intro p hp hbeq
      exact hnotin (by
        rw [beq_iff_eq] at hbeq
        exact hbeq ▸ List.mem_map_of_mem Prod.fst hp)
    rw [List.foldl_cons]
    have hset : jsRecordSet acc vp.address (g vp) = acc ++ [(vp.address, g vp)] := by
      rw [jsRecordSet, if_neg (by simp [hany])]
    rw [hset, ih (acc ++ [(vp.address, g vp)]) ?_]
    · rw [List.append_assoc, List.singleton_append, List.map_cons]
    · rw [List.map_append, List.append_assoc]
      simp only [List.map_cons, List.map_nil, List.singleton_append]
      simpa using hnd

/-- With distinct batch addresses, the stage-5 object is exactly the
batch list paired with its member records, in batch order. -/
theorem rawMembers_eq (env : UnifiedEnv) :
    rawMembers env
      = (ownVotingPowers env).map (fun vp => (vp.address, mkMember env vp)) := by
  rw [rawMembers]
  rw [foldl_jsRecordSet_append (mkMember env) (ownVotingPowers env) []]
  · simp
  · simp only [List.map_nil, List.nil_append]
    rw [ownVotingPowers_addresses]
    exact uniqueAccounts_nodup env

/-- Stamping a delegate moves no entry and changes neither the key nor
the own voting power. -/
theorem stampDelegate_preserves (del : Delegation) (p : String × MemberData) :
    (stampDelegate del p).1 = p.1 ∧ (stampDelegate del p).2.ownVp = p.2.ownVp := by
  rw [stampDelegate]
  split <;> simp

/-- The delegate-stamping loop is a pointwise map of the members
object. -/
theorem stampFold_eq_map :
    ∀ (dels : List Delegation) (acc : List (String × MemberData)),
      dels.foldl (fun acc del => acc.map (stampDelegate del)) acc
        = acc.map (fun p => dels.foldl (fun q del => stampDelegate del q) p) := by
  intro dels
  induction dels with
  | nil => intro acc; simp
  | cons del dels ih =>
    intro acc
    rw [List.foldl_cons, ih, List.map_map]
    rfl

/-- The composite stamp applied to one entry keeps its key and its own
voting power. -/
theorem stampAll_preserves (dels : List Delegation) :
    ∀ (p : String × MemberData),
      (dels.foldl (fun q del => stampDelegate del q) p).1 = p.1
      ∧ (dels.foldl (fun q del => stampDelegate del q) p).2.ownVp = p.2.ownVp := by
  induction dels with
  | nil => intro p; simp
  | cons del dels ih =>
    intro p
    rw [List.foldl_cons]
    have h1 := stampDelegate_preserves del p
    have h2 := ih (stampDelegate del p)
    exact ⟨h2.1.trans h1.1, h2.2.trans h1.2⟩

/-- `mkMemberData` records the batch entry's own power verbatim. -/
theorem mkMemberData_ownVp (dvp : String → ℚ) (cnt : String → Nat)
    (mapEntries : List (String × String)) (vp : VotingPower2) :
    (mkMemberData dvp cnt mapEntries vp).ownVp = vp.own := by
  rw [mkMemberData]
  split <;> rfl

/-- In an association list with distinct keys, lookup of a present
entry's key returns exactly that entry's value. -/
theorem memberLookup_eq_of_nodup (a : String) :
    ∀ (m : List (String × MemberData)) (p : String × MemberData),
      (m.map Prod.fst).Nodup → p ∈ m → p.1 = a → memberLookup m a = some p.2 := by
  intro m
  induction m with
  | nil => intro p _ h; cases h
  | cons q m ih =>
    intro p hnd hmem hkey
    rw [List.map_cons, List.nodup_cons] at hnd
    rcases List.mem_cons.mp hmem with h | h
    · subst h
      rw [memberLookup, List.find?_cons_of_pos _ (by simp [hkey])]
      rfl
    · have hne : q.1 ≠ a := by
        intro he
        exact hnd.1 (he ▸ hkey ▸ List.mem_map_of_mem Prod.fst h)
      rw [memberLookup, List.find?_cons_of_neg _ (by simp [hne])]
      exact ih p hnd.2 h hkey

/-- The key set of the aggregated members object (before sorting) is
exactly the accounts-of-interest set. -/
theorem membersBeforeSort_keys (env : UnifiedEnv) :
    (membersBeforeSort env).map Prod.fst = uniqueAccounts env := by
  rw [membersBeforeSort, stampFold_eq_map, List.map_map]
  have h1 : (rawMembers env).map
      (fun p => (env.delegations.foldl (fun q del => stampDelegate del q) p).1)
      = (rawMembers env).map Prod.fst :=
    List.map_congr_left (fun p _ => (stampAll_preserves env.delegations p).1)
  rw [show (Prod.fst ∘ fun p => env.delegations.foldl (fun q del => stampDelegate del q) p)
        = (fun p : String × MemberData =>
            (env.delegations.foldl (fun q del => stampDelegate del q) p).1) from rfl,
    h1, rawMembers_eq, List.map_map]
  exact ownVotingPowers_addresses env

/-- C9: in the final members map of every completed aggregator run,
both endpoints of every fetched delegation edge (lowercased) are
present as keys; and when the external scoring engine knows nothing
about such an address — as for an address not seen by any other
discovery stage and without token positions — its entry carries
`ownVp = 0`. -/
theorem delegation_edges_resolve (env : UnifiedEnv) (d : Delegation)
    (hd : d ∈ env.delegations) (a : String)
    (ha : a = jsToLower d.delegator ∨ a = jsToLower d.delegate) :
    (memberLookup (fetchUnifiedScores env).data.members a).isSome = true
    ∧ (env.fountainheadScores a = none → env.asupScores a = none →
        (memberLookup (fetchUnifiedScores env).data.members a).map MemberData.ownVp
          = some 0) := by
  have haU : a ∈ uniqueAccounts env := by
    rcases ha with rfl | rfl
    · exact (mem_uniqueAccounts_of_delegation env d hd).1
    · exact (mem_uniqueAccounts_of_delegation env d hd).2
  have hlow : jsToLower a = a := uniqueAccounts_lowered env a haU
  have haddr : (mkVotingPower env a).address = a := by
    rw [mkVotingPower, hlow]
  have hvmem : mkVotingPower env a ∈ ownVotingPowers env :=
    List.mem_map_of_mem (mkVotingPower env) haU
  have hraw : (a, mkMember env (mkVotingPower env a)) ∈ rawMembers env := by
    rw [rawMembers_eq]
    exact List.mem_map.mpr ⟨mkVotingPower env a, hvmem, by rw [haddr]⟩
  have hkey : (env.delegations.foldl (fun q del => stampDelegate del q)
      (a, mkMember env (mkVotingPower env a))).1 = a :=
    (stampAll_preserves env.delegations _).1
  have hmem2 : env.delegations.foldl (fun q del => stampDelegate del q)
      (a, mkMember env (mkVotingPower env a)) ∈ membersBeforeSort env := by
    rw [membersBeforeSort, stampFold_eq_map]
    exact List.mem_map_of_mem
      (fun p => env.delegations.foldl (fun q del => stampDelegate del q) p) hraw
  have hnodup2 : ((membersBeforeSort env).map Prod.fst).Nodup := by
    rw [membersBeforeSort_keys]
    exact uniqueAccounts_nodup env
  have hmem3 : env.delegations.foldl (fun q del => stampDelegate del q)
      (a, mkMember env (mkVotingPower env a)) ∈ compileMembers env := by
    rw [compileMembers]
    exact List.mem_mergeSort.mpr hmem2
  have hnodup3 : ((compileMembers env).map Prod.fst).Nodup :=
    ((List.mergeSort_perm (membersBeforeSort env) memberLE).map Prod.fst).nodup_iff.mpr
      hnodup2
  have hfinal : memberLookup (compileMembers env) a
      = some (env.delegations.foldl (fun q del => stampDelegate del q)
          (a, mkMember env (mkVotingPower env a))).2 :=
    memberLookup_eq_of_nodup a (compileMembers env) _ hnodup3 hmem3 hkey
  have hmembers : (fetchUnifiedScores env).data.members = compileMembers env := rfl
  refine ⟨by rw [hmembers, hfinal]; rfl, fun hf hasup => ?_⟩
  rw [hmembers, hfinal]
  have hown : (env.delegations.foldl (fun q del => stampDelegate del q)
      (a, mkMember env (mkVotingPower env a))).2.ownVp = 0 := by
    rw [(stampAll_preserves env.delegations _).2]
    show (mkMember env (mkVotingPower env a)).ownVp = 0
    rw [mkMember, mkMemberData_ownVp]
    show ((env.fountainheadScores (jsToLower a)).getD 0)
        + ((env.asupScores (jsToLower a)).getD 0) = 0
    rw [hlow, hf, hasup]
    norm_num
  exact congrArg some hown

/-- C9 witness: the environment with the single edge `A → D` and a
scoring engine that knows no address; the delegator's lowercased
address `a` is a key of the final members map and its entry carries
`ownVp = 0`. -/
theorem delegation_edges_resolve_witness :
    (memberLookup (fetchUnifiedScores exEnv).data.members "a").isSome = true
    ∧ (exEnv.fountainheadScores "a" = none → exEnv.asupScores "a" = none →
        (memberLookup (fetchUnifiedScores exEnv).data.members "a").map
          MemberData.ownVp = some 0) :=
  delegation_edges_resolve exEnv { delegator := "A", delegate := "D" }
    (by decide) "a" (Or.inl (by decide))

end SupMetrics
